import Mathlib

/-!
Shallow embedding of `src/salve_ipc/ipc.py` (class `IPC`): the client-side
IPC correlation layer of Moosems/makeshift-lsp.

Python dictionaries are modelled as association lists (`dictGet`/`dictSet`
mirror `d[k]` lookup and `d[k] = v` assignment; a `dictGet` returning `none`
corresponds to a Python `KeyError` on subscript).  Python's `list.remove`
(which raises `ValueError` when the element is absent) is `listRemove`.
Randomness (`randint(1, id_max)`) is modelled by an explicit oracle: a list
of draws consumed left to right; exhausting the list models the case where
the rejection-sampling loop has not yet terminated within the modelled
prefix of the random stream.  Raised exceptions are modelled with `Except`.
The worker subprocess is abstracted to a liveness bit plus an event trace:
`alive` (is the `main_server` process running), `spawn_count` (how many
times `create_server` started a process), and `sent` (the messages put on
`requests_queue`, in order).  The inbound `response_queue` is a list field.
-/

/-- The fixed command set, from the `IPC` class docstring in
`src/salve_ipc/ipc.py`: "autocomplete", "replacements", and "highlight"
(the `COMMANDS` constant itself lives in the repository's `misc.py`,
which only its importer is available here). -/
def COMMANDS : List String := ["autocomplete", "replacements", "highlight"]

/-- Python `d[k]` read on an association list: `none` models `KeyError`. -/
def dictGet {α : Type} : List (String × α) → String → Option α
  | [], _ => none
  | (k', v') :: rest, k => if k' = k then some v' else dictGet rest k

/-- Python `d[k] = v`: replace in place if the key exists, else append
(matching dict insertion-order semantics). -/
def dictSet {α : Type} : List (String × α) → String → α → List (String × α)
  | [], k, v => [(k, v)]
  | (k', v') :: rest, k, v =>
    if k' = k then (k, v) :: rest else (k', v') :: dictSet rest k v

/-- Python `k in d` membership test. -/
def dictMem {α : Type} (m : List (String × α)) (k : String) : Bool :=
  (dictGet m k).isSome

/-- Python `list.remove(x)`: drop the first occurrence, `none` models the
`ValueError` raised when `x` is absent. -/
def listRemove : List Nat → Nat → Option (List Nat)
  | [], _ => none
  | y :: rest, x =>
    if y = x then some rest else (listRemove rest x).map (fun l => y :: l)

/-- A `Message` put on `requests_queue`: the three shapes built by
`IPC.create_message` (`Ping`, `Request`, `Notification` of `misc.py`). -/
inductive Message where
  | ping (id : Nat)
  | request (id : Nat) (command : String) (file : String)
      (expected_keywords : List String) (current_word : String)
      (language : String) (text_range : Int × Int)
  | notification (id : Nat) (remove : Bool) (file : String) (contents : String)
deriving DecidableEq, Repr

/-- A worker `Response`: its id, an optional command tag, and an opaque
result payload (the payload's content is never inspected by `ipc.py`). -/
structure Response where
  id : Nat
  command : Option String
  result : String
deriving DecidableEq, Repr

/-- The exceptions `ipc.py` can raise: the two explicit `raise Exception`
sites (invalid command, unknown file) and the built-in exceptions that
escape `parse_response` (`ValueError` from `list.remove`, `KeyError` from
a dict subscript on a missing key). -/
inductive IPCErr where
  | invalidCommand
  | unknownFile
  | valueErr
  | keyErr
deriving DecidableEq, Repr

/-- The mutable state of one `IPC` instance plus the observable effects on
its collaborators (worker process and outbound queue). -/
structure IPCState where
  all_ids : List Nat
  id_max : Nat
  current_ids : List (String × Nat)
  newest_responses : List (String × Option Response)
  files : List (String × String)
  response_queue : List Response
  alive : Bool
  sent : List Message
  spawn_count : Nat
deriving DecidableEq, Repr

/-- `IPC.kill_IPC`: kills the `main_server` process. -/
def kill_IPC (s : IPCState) : IPCState :=
  { s with alive := false }

/-- The rejection-sampling loop of `IPC.create_message` (lines 64-66):
`id = randint(1, id_max); while id in all_ids: id = randint(1, id_max)`.
The draws are the oracle of `randint` outcomes; the loop accepts the first
draw not in `all_ids`.  `none` means the modelled prefix of the random
stream was exhausted with every draw colliding. -/
def allocId : List Nat → List Nat → Option (Nat × List Nat)
  | [], _ => none
  | d :: rest, all_ids =>
    if d ∈ all_ids then allocId rest all_ids else some (d, rest)

/-- The keyword arguments of `IPC.create_message`; `Kwargs.get` defaults
mirror each `kwargs.get(name, default)` call site. -/
structure Kwargs where
  command : Option String
  file : Option String
  expected_keywords : Option (List String)
  current_word : Option String
  language : Option String
  text_range : Option (Int × Int)
  remove : Option Bool
  filename : Option String
  contents : Option String
deriving Repr

/-- No keyword arguments. -/
def Kwargs.empty : Kwargs := ⟨none, none, none, none, none, none, none, none, none⟩

/-- `IPC.send_message`: put the message on `requests_queue`. -/
def send_message (s : IPCState) (message : Message) : IPCState :=
  { s with sent := s.sent ++ [message] }

/-- `IPC.create_message` (lines 62-98): draw a fresh id, register it in
`all_ids`, then build and send the message shape selected by `ty`
(the `match type` statement; the wildcard case sends a `Ping`). -/
def create_message (ty : String) (kw : Kwargs) (s : IPCState)
    (draws : List Nat) : Option (IPCState × List Nat) :=
  match allocId draws s.all_ids with
  | none => none
  | some (id, rest) =>
    let s := { s with all_ids := s.all_ids ++ [id] }
    match ty with
    | "ping" => some (send_message s (Message.ping id), rest)
    | "request" =>
      let command := kw.command.getD ""
      let s := { s with current_ids := dictSet s.current_ids command id }
      some (send_message s (Message.request id command (kw.file.getD "")
        (kw.expected_keywords.getD []) (kw.current_word.getD "")
        (kw.language.getD "") (kw.text_range.getD (1, -1))), rest)
    | "notification" =>
      some (send_message s (Message.notification id (kw.remove.getD false)
        (kw.filename.getD "") (kw.contents.getD "")), rest)
    | _ => some (send_message s (Message.ping id), rest)

/-- `IPC.ping` (lines 100-102). -/
def ping (s : IPCState) (draws : List Nat) : Option (IPCState × List Nat) :=
  create_message "ping" Kwargs.empty s draws

/-- `IPC.request` (lines 104-132): validate the command against `COMMANDS`
and the file against `files`; on either failure `kill_IPC` then raise;
otherwise build and send one `Request` message. -/
def request (command : String) (file : String)
    (expected_keywords : List String) (current_word : String)
    (language : String) (text_range : Int × Int)
    (s : IPCState) (draws : List Nat) :
    Except (IPCErr × IPCState) (Option (IPCState × List Nat)) :=
  if command ∉ COMMANDS then
    .error (.invalidCommand, kill_IPC s)
  else if ¬ dictMem s.files file then
    .error (.unknownFile, kill_IPC s)
  else
    .ok (create_message "request"
      ⟨some command, some file, some expected_keywords, some current_word,
        some language, some text_range, none, none, none⟩ s draws)

/-- `IPC.cancel_request` (lines 134-142): validate the command (killing the
worker and raising on failure), then set `current_ids[command] = 0`. -/
def cancel_request (command : String) (s : IPCState) :
    Except (IPCErr × IPCState) IPCState :=
  if command ∉ COMMANDS then
    .error (.invalidCommand, kill_IPC s)
  else
    .ok { s with current_ids := dictSet s.current_ids command 0 }

/-- `IPC.parse_response` (lines 144-157): remove the response's id from
`all_ids` (`ValueError` if absent); stop if there is no command tag;
look up `current_ids[res.command]` (`KeyError` if the command is not a
key); if the id matches the live id, reset the live id to 0 and store the
response, otherwise discard it. -/
def parse_response (res : Response) (s : IPCState) : Except IPCErr IPCState :=
  match listRemove s.all_ids res.id with
  | none => .error .valueErr
  | some ids =>
    let s := { s with all_ids := ids }
    match res.command with
    | none => .ok s
    | some command =>
      match dictGet s.current_ids command with
      | none => .error .keyErr
      | some cur =>
        if res.id ≠ cur then .ok s
        else .ok { s with
          current_ids := dictSet s.current_ids command 0,
          newest_responses := dictSet s.newest_responses command (some res) }

/-- The drain loop of `IPC.check_responses` (lines 159-162): pop each
pending response in FIFO order and feed it to `parse_response`; an
exception escaping `parse_response` aborts the loop. -/
def drainLoop : List Response → IPCState → Except IPCErr IPCState
  | [], s => .ok s
  | r :: rest, s =>
    match parse_response r s with
    | .error e => .error e
    | .ok s' => drainLoop rest s'

/-- `IPC.check_responses`: drain the whole `response_queue`. -/
def check_responses (s : IPCState) : Except IPCErr IPCState :=
  drainLoop s.response_queue { s with response_queue := [] }

/-- `IPC.get_response` (lines 164-175): validate the command (killing the
worker and raising on failure), drain pending responses, then return and
clear `newest_responses[command]` (`KeyError` if the command is not a
key of `newest_responses`). -/
def get_response (command : String) (s : IPCState) :
    Except (IPCErr × IPCState) (Option Response × IPCState) :=
  if command ∉ COMMANDS then
    .error (.invalidCommand, kill_IPC s)
  else
    match check_responses s with
    | .error e => .error (e, s)
    | .ok s' =>
      match dictGet s'.newest_responses command with
      | none => .error (.keyErr, s')
      | some response =>
        .ok (response,
          { s' with newest_responses := dictSet s'.newest_responses command none })

/-- `IPC.update_file` (lines 177-184): write `files[filename] = contents`,
then send an upsert `Notification`. -/
def update_file (filename : String) (current_state : String)
    (s : IPCState) (draws : List Nat) : Option (IPCState × List Nat) :=
  let s := { s with files := dictSet s.files filename current_state }
  create_message "notification"
    ⟨none, none, none, none, none, none, none, some filename, some current_state⟩
    s draws

/-- `IPC.remove_file` (lines 186-194): raise (after `kill_IPC`) when the
filename is not a key of `files`; otherwise send a removal `Notification`.
Note the source never deletes the key from `self.files`. -/
def remove_file (filename : String) (s : IPCState) (draws : List Nat) :
    Except (IPCErr × IPCState) (Option (IPCState × List Nat)) :=
  if ¬ dictMem s.files filename then
    .error (.unknownFile, kill_IPC s)
  else
    .ok (create_message "notification"
      ⟨none, none, none, none, none, none, some true, some filename, none⟩
      s draws)

/-- The replay loop of `IPC.create_server` (lines 47-50): re-`update_file`
each entry of the saved copy of `files`, in order. -/
def replayFiles : List (String × String) → IPCState → List Nat →
    Option (IPCState × List Nat)
  | [], s, draws => some (s, draws)
  | (filename, data) :: rest, s, draws =>
    match update_file filename data s draws with
    | none => none
    | some (s', draws') => replayFiles rest s' draws'

/-- `IPC.create_server` (lines 36-50): spawn a fresh worker process bound
to fresh channels, then replay the file mirror: copy `files`, reset it to
empty, and `update_file` every saved entry. -/
def create_server (s : IPCState) (draws : List Nat) :
    Option (IPCState × List Nat) :=
  let s := { s with alive := true, spawn_count := s.spawn_count + 1 }
  let files_copy := s.files
  let s := { s with files := [] }
  replayFiles files_copy s draws

/-- `IPC.check_server` (lines 52-55): respawn via `create_server` only when
the worker process is not alive. -/
def check_server (s : IPCState) (draws : List Nat) :
    Option (IPCState × List Nat) :=
  if ¬ s.alive then create_server s draws else some (s, draws)

/-- `IPC.__init__` (lines 19-34) just before its `create_server()` call:
empty id list, live id 0 and empty buffer slot for each command, no files. -/
def initState (id_max : Nat) : IPCState :=
  { all_ids := []
    id_max := id_max
    current_ids := COMMANDS.map (fun c => (c, 0))
    newest_responses := COMMANDS.map (fun c => (c, none))
    files := []
    response_queue := []
    alive := false
    sent := []
    spawn_count := 0 }

/-! ### Lemmas about the dictionary and list primitives -/

theorem dictGet_dictSet_self {α : Type} (m : List (String × α)) (k : String)
    (v : α) : dictGet (dictSet m k v) k = some v := by
  induction m with
  | nil => simp [dictSet, dictGet]
  | cons p rest ih =>
    obtain ⟨pk, pv⟩ := p
    by_cases h : pk = k
    · simp [dictSet, dictGet, h]
    · simp [dictSet, dictGet, h, ih]

theorem dictGet_dictSet_ne {α : Type} (m : List (String × α)) (k k' : String)
    (v : α) (h : k' ≠ k) : dictGet (dictSet m k v) k' = dictGet m k' := by
  induction m with
  | nil => simp [dictSet, dictGet, Ne.symm h]
  | cons p rest ih =>
    obtain ⟨pk, pv⟩ := p
    by_cases hp : pk = k
    · simp only [dictSet, if_pos hp, dictGet]
      have h1 : ¬ (pk = k') := fun hx => h (hp.symm.trans hx).symm
      have h2 : ¬ (k = k') := fun hx => h hx.symm
      rw [if_neg h2, if_neg h1]
    · simp only [dictSet, if_neg hp, dictGet]
      by_cases hp' : pk = k'
      · rw [if_pos hp', if_pos hp']
      · rw [if_neg hp', if_neg hp', ih]

theorem dictGet_isSome_dictSet {α : Type} (m : List (String × α))
    (k k' : String) (v : α) :
    (dictGet (dictSet m k v) k').isSome ↔ k' = k ∨ (dictGet m k').isSome := by
  by_cases h : k' = k
  · subst h; simp [dictGet_dictSet_self]
  · simp [dictGet_dictSet_ne m k k' v h, h]

theorem listRemove_eq_none (l : List Nat) (x : Nat) :
    listRemove l x = none ↔ x ∉ l := by
  induction l with
  | nil => simp [listRemove]
  | cons y rest ih =>
    by_cases h : y = x
    · simp [listRemove, h]
    · simp [listRemove, h, Option.map_eq_none, ih, Ne.symm h]

theorem listRemove_some_of_mem {l : List Nat} {x : Nat} (h : x ∈ l) :
    ∃ l', listRemove l x = some l' := by
  cases hr : listRemove l x with
  | none => exact absurd h ((listRemove_eq_none l x).mp hr)
  | some l' => exact ⟨l', rfl⟩

theorem listRemove_eq_erase {l l' : List Nat} {x : Nat}
    (h : listRemove l x = some l') : l' = l.erase x := by
  induction l generalizing l' with
  | nil => simp [listRemove] at h
  | cons y rest ih =>
    by_cases hy : y = x
    · subst hy
      simp [listRemove] at h
      simp [List.erase_cons, ← h]
    · simp [listRemove, hy] at h
      obtain ⟨l'', hl'', rfl⟩ := h
      have hb : (y == x) = false := by simp [hy]
      simp [List.erase_cons, hb, ih hl'']

theorem mem_of_listRemove {l l' : List Nat} {x a : Nat}
    (h : listRemove l x = some l') (ha : a ∈ l) (hne : a ≠ x) : a ∈ l' := by
  have he := listRemove_eq_erase h
  subst he
  exact (List.mem_erase_of_ne hne).mpr ha

theorem listRemove_nodup {l l' : List Nat} {x : Nat}
    (h : listRemove l x = some l') (hnd : l.Nodup) : l'.Nodup := by
  have he := listRemove_eq_erase h
  subst he
  exact hnd.erase x

theorem not_mem_listRemove {l l' : List Nat} {x : Nat}
    (h : listRemove l x = some l') (hnd : l.Nodup) : x ∉ l' := by
  have he := listRemove_eq_erase h
  subst he
  exact hnd.not_mem_erase

/-! ### C1: the observe step of the correlator -/

/-- C1: for every response processed by `parse_response` (observe), the
response's id is removed from `all_ids` (the outstanding set); if the
response carries no command tag nothing else changes; otherwise, if its id
equals `current_ids[command]`, the response is stored in
`newest_responses[command]` and `current_ids[command]` is reset to 0; in
every other case the response is discarded and both maps are unchanged. -/
theorem C1_parse_response_observe (res : Response) (s : IPCState)
    (hid : res.id ∈ s.all_ids)
    (hkey : ∀ c, res.command = some c → (dictGet s.current_ids c).isSome) :
    ∃ s', parse_response res s = Except.ok s' ∧
      s'.all_ids = s.all_ids.erase res.id ∧
      s'.id_max = s.id_max ∧ s'.files = s.files ∧ s'.sent = s.sent ∧
      s'.response_queue = s.response_queue ∧ s'.alive = s.alive ∧
      s'.spawn_count = s.spawn_count ∧
      (res.command = none →
        s'.current_ids = s.current_ids ∧
        s'.newest_responses = s.newest_responses) ∧
      (∀ c, res.command = some c →
        (dictGet s.current_ids c = some res.id →
          dictGet s'.current_ids c = some 0 ∧
          dictGet s'.newest_responses c = some (some res) ∧
          (∀ c', c' ≠ c →
            dictGet s'.current_ids c' = dictGet s.current_ids c' ∧
            dictGet s'.newest_responses c' = dictGet s.newest_responses c')) ∧
        (dictGet s.current_ids c ≠ some res.id →
          s'.current_ids = s.current_ids ∧
          s'.newest_responses = s.newest_responses)) := by
  obtain ⟨ids, hrem⟩ := listRemove_some_of_mem hid
  have herase := listRemove_eq_erase hrem
  cases hc : res.command with
  | none =>
    refine ⟨{ s with all_ids := ids }, ?_, ?_⟩
    · simp [parse_response, hrem, hc]
    · exact ⟨herase, rfl, rfl, rfl, rfl, rfl, rfl,
        fun _ => ⟨rfl, rfl⟩, fun c hcc => nomatch hcc⟩
  | some c =>
    have hk := hkey c hc
    rw [Option.isSome_iff_exists] at hk
    obtain ⟨cur, hcur⟩ := hk
    by_cases heq : res.id = cur
    · subst heq
      refine ⟨{ s with all_ids := ids,
                       current_ids := dictSet s.current_ids c 0,
                       newest_responses := dictSet s.newest_responses c (some res) },
        ?_, ?_⟩
      · simp [parse_response, hrem, hc, hcur]
      · refine ⟨herase, rfl, rfl, rfl, rfl, rfl, rfl, ?_, ?_⟩
        · intro hnone; exact nomatch hnone
        · intro c' hcc
          injection hcc with hcc'
          subst hcc'
          refine ⟨fun _ => ⟨dictGet_dictSet_self _ _ _, dictGet_dictSet_self _ _ _,
            fun c'' hne => ⟨dictGet_dictSet_ne _ _ _ _ hne,
              dictGet_dictSet_ne _ _ _ _ hne⟩⟩, fun hne => absurd hcur hne⟩
    · refine ⟨{ s with all_ids := ids }, ?_, ?_⟩
      · simp [parse_response, hrem, hc, hcur, heq]
      · refine ⟨herase, rfl, rfl, rfl, rfl, rfl, rfl, ?_, ?_⟩
        · intro hnone; exact nomatch hnone
        · intro c' hcc
          injection hcc with hcc'
          subst hcc'
          refine ⟨fun hmatch => ?_, fun _ => ⟨rfl, rfl⟩⟩
          rw [hcur] at hmatch
          injection hmatch with hmatch'
          exact absurd hmatch'.symm heq

/-- A concrete response used by witnesses: id 7, answering "autocomplete". -/
def resW : Response := ⟨7, some "autocomplete", "data"⟩

/-- A concrete client state used by witnesses: id 7 outstanding and live
for "autocomplete". -/
def sW : IPCState :=
  ⟨[7], 15000,
    [("autocomplete", 7), ("replacements", 0), ("highlight", 0)],
    [("autocomplete", none), ("replacements", none), ("highlight", none)],
    [], [], true, [], 1⟩

/-- Witness for C1: on the concrete state `sW`, observing `resW` succeeds,
stores the response and resets the live id. -/
theorem C1_parse_response_observe_witness :
    resW.id ∈ sW.all_ids ∧
    (dictGet sW.current_ids "autocomplete").isSome ∧
    ∃ s', parse_response resW sW = Except.ok s' ∧
      dictGet s'.newest_responses "autocomplete" = some (some resW) ∧
      dictGet s'.current_ids "autocomplete" = some 0 := by
  refine ⟨by decide, by decide, ?_⟩
  obtain ⟨s', hok, _, _, _, _, _, _, _, _, hsome⟩ :=
    C1_parse_response_observe resW sW (by decide)
      (fun c hcc => by injection hcc with h; subst h; decide)
  obtain ⟨hcur0, hstore, -⟩ := (hsome "autocomplete" rfl).1 (by decide)
  exact ⟨s', hok, hstore, hcur0⟩

/-! ### C9: partiality of the observe step -/

/-- C9: `parse_response` is partial: a drained response whose id is not in
`all_ids` raises (`ValueError` from `list.remove`), a response whose
command tag is not a key of `current_ids` raises (`KeyError`), and
`get_response`, which drains through `parse_response`, propagates the
exception instead of discarding the response. -/
theorem C9_parse_response_raises (s : IPCState) (res : Response) :
    (res.id ∉ s.all_ids → parse_response res s = Except.error IPCErr.valueErr) ∧
    (∀ c, res.command = some c → res.id ∈ s.all_ids →
      dictGet s.current_ids c = none →
      parse_response res s = Except.error IPCErr.keyErr) ∧
    (∀ command, command ∈ COMMANDS → s.response_queue = [res] →
      ∀ e, parse_response res { s with response_queue := [] } = Except.error e →
        get_response command s = Except.error (e, s)) := by
  refine ⟨?_, ?_, ?_⟩
  · intro hid
    have hr : listRemove s.all_ids res.id = none := (listRemove_eq_none _ _).mpr hid
    simp [parse_response, hr]
  · intro c hc hid hget
    obtain ⟨ids, hr⟩ := listRemove_some_of_mem hid
    simp [parse_response, hr, hc, hget]
  · intro command hco hq e herr
    simp [get_response, hco, check_responses, hq, drainLoop, herr]

/-- Witness for C9: a response whose id was never issued (or already
consumed) crashes the observe step on a concrete state. -/
theorem C9_parse_response_raises_witness :
    (resW.id ∉ (initState 15000).all_ids) ∧
    parse_response resW (initState 15000) = Except.error IPCErr.valueErr :=
  ⟨by decide, (C9_parse_response_raises (initState 15000) resW).1 (by decide)⟩

/-! ### C5: cancellation drops late answers -/

/-- C5: after a successful `cancel_request command`, `current_ids[command]`
is the sentinel 0; any response later observed that bears the
previously-live identifier (any identifier ≥ 1 — every issued identifier
lies in [1, id_max], so none can match the sentinel 0) is removed from
`all_ids` but never stored, and a `get_response command` that drains it
returns `none` rather than that response. -/
theorem C5_cancel_drops_late_responses (command : String) (s s' : IPCState)
    (hc : command ∈ COMMANDS)
    (hcancel : cancel_request command s = Except.ok s') :
    dictGet s'.current_ids command = some 0 ∧
    ∀ res : Response, res.command = some command → 1 ≤ res.id →
      res.id ∈ s'.all_ids →
      ∃ s'', parse_response res s' = Except.ok s'' ∧
        s''.newest_responses = s'.newest_responses ∧
        s''.all_ids = s'.all_ids.erase res.id ∧
        (dictGet s'.newest_responses command = some none →
          s'.response_queue = [res] →
          ∃ s3, get_response command s' = Except.ok (none, s3)) := by
  have hok : cancel_request command s =
      Except.ok { s with current_ids := dictSet s.current_ids command 0 } := by
    simp [cancel_request, hc]
  rw [hok] at hcancel
  injection hcancel with hcancel
  subst hcancel
  refine ⟨dictGet_dictSet_self _ _ _, ?_⟩
  intro res hrc hge hmem
  obtain ⟨ids, hrem⟩ := listRemove_some_of_mem hmem
  have hne : res.id ≠ 0 := by omega
  refine ⟨{ s with current_ids := dictSet s.current_ids command 0, all_ids := ids }, ?_, rfl, listRemove_eq_erase hrem, ?_⟩
  · simp [parse_response, hrem, hrc, dictGet_dictSet_self, hne]
  · intro hslot hq
    refine ⟨{ s with current_ids := dictSet s.current_ids command 0, all_ids := ids, response_queue := [], newest_responses := dictSet s.newest_responses command none }, ?_⟩
    have hq' : s.response_queue = [res] := hq
    have hslot' : dictGet s.newest_responses command = some none := hslot
    have hrem' : listRemove s.all_ids res.id = some ids := hrem
    simp [get_response, hc, check_responses, hq', drainLoop, parse_response,
      hrem', hrc, dictGet_dictSet_self, hne, hslot']

/-! ### Inversion lemmas for message construction -/

theorem create_message_ping_eq (kw : Kwargs) (s : IPCState) (draws : List Nat) :
    create_message "ping" kw s draws =
      (allocId draws s.all_ids).map (fun p =>
        (send_message { s with all_ids := s.all_ids ++ [p.1] } (Message.ping p.1), p.2)) := by
  unfold create_message
  cases allocId draws s.all_ids <;> rfl

theorem create_message_request_eq (kw : Kwargs) (s : IPCState) (draws : List Nat) :
    create_message "request" kw s draws =
      (allocId draws s.all_ids).map (fun p =>
        (send_message { s with all_ids := s.all_ids ++ [p.1], current_ids := dictSet s.current_ids (kw.command.getD "") p.1 } (Message.request p.1 (kw.command.getD "") (kw.file.getD "") (kw.expected_keywords.getD []) (kw.current_word.getD "") (kw.language.getD "") (kw.text_range.getD (1, -1))), p.2)) := by
  unfold create_message
  cases allocId draws s.all_ids <;> rfl

theorem create_message_notification_eq (kw : Kwargs) (s : IPCState) (draws : List Nat) :
    create_message "notification" kw s draws =
      (allocId draws s.all_ids).map (fun p =>
        (send_message { s with all_ids := s.all_ids ++ [p.1] } (Message.notification p.1 (kw.remove.getD false) (kw.filename.getD "") (kw.contents.getD "")), p.2)) := by
  unfold create_message
  cases allocId draws s.all_ids <;> rfl

theorem allocId_mem {draws l : List Nat} {id : Nat} {rest : List Nat}
    (h : allocId draws l = some (id, rest)) : id ∉ l ∧ id ∈ draws := by
  induction draws with
  | nil => cases h
  | cons d ds ih =>
    by_cases hd : d ∈ l
    · unfold allocId at h
      rw [if_pos hd] at h
      obtain ⟨h1, h2⟩ := ih h
      exact ⟨h1, List.mem_cons_of_mem _ h2⟩
    · unfold allocId at h
      rw [if_neg hd] at h
      injection h with h
      rw [Prod.mk.injEq] at h
      obtain ⟨rfl, rfl⟩ := h
      exact ⟨hd, List.mem_cons_self _ _⟩

/-- Inversion of a successful `request`: both validations passed, an id was
drawn fresh, `current_ids[command]` was set to it, and exactly one
`Request` message was sent. -/
theorem request_ok_inv {command file : String} {ekw : List String}
    {cw lang : String} {tr : Int × Int} {s : IPCState} {draws : List Nat}
    {s1 : IPCState} {d1 : List Nat}
    (h : request command file ekw cw lang tr s draws = Except.ok (some (s1, d1))) :
    command ∈ COMMANDS ∧ dictMem s.files file = true ∧
    ∃ id, allocId draws s.all_ids = some (id, d1) ∧
      s1 = { s with all_ids := s.all_ids ++ [id],
                    current_ids := dictSet s.current_ids command id,
                    sent := s.sent ++ [Message.request id command file ekw cw lang tr] } := by
  by_cases hc : command ∈ COMMANDS
  · by_cases hf : dictMem s.files file
    · refine ⟨hc, hf, ?_⟩
      rw [request, if_neg (not_not_intro hc), if_neg (by simp [hf])] at h
      injection h with h
      unfold create_message at h
      cases halloc : allocId draws s.all_ids with
      | none => rw [halloc] at h; cases h
      | some p =>
        obtain ⟨id, r⟩ := p
        rw [halloc] at h
        simp only [Option.map_some', Option.some.injEq, Prod.mk.injEq] at h
        obtain ⟨hs1, hrest⟩ := h
        subst hrest
        refine ⟨id, rfl, ?_⟩
        rw [← hs1]
        simp [send_message]
    · rw [request, if_neg (not_not_intro hc), if_pos (by simp [hf])] at h
      cases h
  · rw [request, if_pos hc] at h
    cases h

/-! ### C2: supersession and exactly-once retrieval -/

/-- C2: `get_response` returns the buffered response for a valid command
and clears its slot; after two consecutive requests for the same command,
a drained response bearing the superseded (first) id makes `get_response`
return `none`, while a drained response bearing the live (second) id is
returned exactly once, every later `get_response` returning `none` until
a new request. -/
theorem C2_supersession_exactly_once (command file : String)
    (ekw : List String) (cw lang : String) (tr : Int × Int)
    (s s1 s2 : IPCState) (d0 d1 d2 : List Nat)
    (hslot : dictGet s.newest_responses command = some none)
    (h1 : request command file ekw cw lang tr s d0 = Except.ok (some (s1, d1)))
    (h2 : request command file ekw cw lang tr s1 d1 = Except.ok (some (s2, d2))) :
    (∀ t : IPCState, ∀ r : Option Response, t.response_queue = [] →
      dictGet t.newest_responses command = some r →
      ∃ t', get_response command t = Except.ok (r, t') ∧
        dictGet t'.newest_responses command = some none) ∧
    ∃ id1 id2, id1 ≠ id2 ∧
      dictGet s2.current_ids command = some id2 ∧
      (∀ r1 : Response, r1.id = id1 → r1.command = some command →
        ∃ s3, get_response command { s2 with response_queue := [r1] } =
          Except.ok (none, s3)) ∧
      (∀ r2 : Response, r2.id = id2 → r2.command = some command →
        ∃ s3 s4, get_response command { s2 with response_queue := [r2] } =
            Except.ok (some r2, s3) ∧
          get_response command s3 = Except.ok (none, s4) ∧
          dictGet s4.newest_responses command = some none ∧
          s4.response_queue = []) := by
  obtain ⟨hc, hf, id1, halloc1, hs1⟩ := request_ok_inv h1
  obtain ⟨-, -, id2, halloc2, hs2⟩ := request_ok_inv h2
  have hall2 : s2.all_ids = (s.all_ids ++ [id1]) ++ [id2] := by rw [hs2, hs1]
  have hcur2 : s2.current_ids = dictSet (dictSet s.current_ids command id1) command id2 := by rw [hs2, hs1]
  have hnew2 : s2.newest_responses = s.newest_responses := by rw [hs2, hs1]
  have hfresh2 := (allocId_mem halloc2).1
  rw [hs1] at hfresh2
  have hfresh2' : id2 ∉ s.all_ids ++ [id1] := by simpa using hfresh2
  have hne : id1 ≠ id2 := by
    intro he
    exact hfresh2' (by simp [he])
  have hcur2' : dictGet s2.current_ids command = some id2 := by
    rw [hcur2]; exact dictGet_dictSet_self _ _ _
  have hslot2 : dictGet s2.newest_responses command = some none := by
    rw [hnew2]; exact hslot
  refine ⟨?_, id1, id2, hne, hcur2', ?_, ?_⟩
  · intro t r htq htr
    refine ⟨{ t with response_queue := [], newest_responses := dictSet t.newest_responses command none }, ?_, dictGet_dictSet_self _ _ _⟩
    simp [get_response, hc, check_responses, htq, drainLoop, htr]
  · intro r1 hid1 hc1
    have hmem1 : r1.id ∈ s2.all_ids := by rw [hall2]; simp [hid1]
    obtain ⟨ids1, hrem1⟩ := listRemove_some_of_mem hmem1
    have hne1 : r1.id ≠ id2 := by rw [hid1]; exact hne
    refine ⟨{ s2 with all_ids := ids1, response_queue := [], newest_responses := dictSet s2.newest_responses command none }, ?_⟩
    simp [get_response, hc, check_responses, drainLoop, parse_response,
      hrem1, hc1, hcur2', hne1, hslot2]
  · intro r2 hid2 hc2
    have hmem2 : r2.id ∈ s2.all_ids := by rw [hall2]; simp [hid2]
    obtain ⟨ids2, hrem2⟩ := listRemove_some_of_mem hmem2
    rw [hid2] at hrem2
    refine ⟨{ s2 with all_ids := ids2, response_queue := [], current_ids := dictSet s2.current_ids command 0, newest_responses := dictSet (dictSet s2.newest_responses command (some r2)) command none }, { s2 with all_ids := ids2, response_queue := [], current_ids := dictSet s2.current_ids command 0, newest_responses := dictSet (dictSet (dictSet s2.newest_responses command (some r2)) command none) command none }, ?_, ?_, ?_, rfl⟩
    · simp [get_response, hc, check_responses, drainLoop, parse_response,
        hrem2, hc2, hcur2', hid2, dictGet_dictSet_self]
    · simp [get_response, hc, check_responses, drainLoop, dictGet_dictSet_self]
    · exact dictGet_dictSet_self _ _ _

/-- Concrete start state for the supersession witness: one mirrored file,
clean correlator. -/
def sW2 : IPCState :=
  ⟨[], 15000,
    [("autocomplete", 0), ("replacements", 0), ("highlight", 0)],
    [("autocomplete", none), ("replacements", none), ("highlight", none)],
    [("f.py", "x = 1")], [], true, [], 1⟩

/-- State after the first witness request (id 5). -/
def sW2a : IPCState :=
  { sW2 with all_ids := [5],
             current_ids := dictSet sW2.current_ids "autocomplete" 5,
             sent := [Message.request 5 "autocomplete" "f.py" [] "" "Text" (1, -1)] }

/-- State after the second witness request (id 8). -/
def sW2b : IPCState :=
  { sW2a with all_ids := [5, 8],
              current_ids := dictSet sW2a.current_ids "autocomplete" 8,
              sent := sW2a.sent ++ [Message.request 8 "autocomplete" "f.py" [] "" "Text" (1, -1)] }

/-- Witness for C2: two concrete consecutive requests issue distinct ids,
and the correlator tracks the second. -/
theorem C2_supersession_exactly_once_witness :
    dictGet sW2.newest_responses "autocomplete" = some none ∧
    request "autocomplete" "f.py" [] "" "Text" (1, -1) sW2 [5, 8] =
      Except.ok (some (sW2a, [8])) ∧
    request "autocomplete" "f.py" [] "" "Text" (1, -1) sW2a [8] =
      Except.ok (some (sW2b, [])) ∧
    ∃ id1 id2, id1 ≠ id2 ∧ dictGet sW2b.current_ids "autocomplete" = some id2 := by
  refine ⟨by decide, by rfl, by rfl, ?_⟩
  obtain ⟨-, id1, id2, hne, hcur, -, -⟩ :=
    C2_supersession_exactly_once "autocomplete" "f.py" [] "" "Text" (1, -1)
      sW2 sW2a sW2b [5, 8] [8] [] (by decide) (by rfl) (by rfl)
  exact ⟨id1, id2, hne, hcur⟩

/-- Concrete late response for the cancellation witness. -/
def resW5 : Response := ⟨9, some "highlight", "late"⟩

/-- Concrete state for the cancellation witness: id 9 outstanding and live
for "highlight", with the late response already queued inbound. -/
def sW5 : IPCState :=
  ⟨[9], 15000,
    [("autocomplete", 0), ("replacements", 0), ("highlight", 9)],
    [("autocomplete", none), ("replacements", none), ("highlight", none)],
    [], [resW5], true, [], 1⟩

/-- `sW5` after cancelling "highlight". -/
def sW5c : IPCState := { sW5 with current_ids := dictSet sW5.current_ids "highlight" 0 }

/-- Witness for C5: on the concrete cancelled state, the live id is the
sentinel 0 and draining the late response yields `none`. -/
theorem C5_cancel_drops_late_responses_witness :
    ("highlight" ∈ COMMANDS) ∧
    cancel_request "highlight" sW5 = Except.ok sW5c ∧
    dictGet sW5c.current_ids "highlight" = some 0 ∧
    ∃ s3, get_response "highlight" sW5c = Except.ok (none, s3) := by
  obtain ⟨h0, hdrop⟩ :=
    C5_cancel_drops_late_responses "highlight" sW5 sW5c (by decide) (by rfl)
  obtain ⟨s'', -, -, -, hinner⟩ := hdrop resW5 rfl (by decide) (by decide)
  exact ⟨by decide, by rfl, h0, hinner (by decide) (by rfl)⟩

/-! ### C6: request validation and fail-fast teardown -/

/-- C6: `request` fails with InvalidCommand exactly when the command is
outside the fixed set, with UnknownFile exactly when the command is valid
but the file is not mirrored; on either failure the worker is killed and
nothing is sent; a success sends exactly one Request message. -/
theorem C6_request_validation (command file : String) (ekw : List String)
    (cw lang : String) (tr : Int × Int) (s : IPCState) (draws : List Nat) :
    (request command file ekw cw lang tr s draws =
        Except.error (IPCErr.invalidCommand, kill_IPC s) ↔ command ∉ COMMANDS) ∧
    (request command file ekw cw lang tr s draws =
        Except.error (IPCErr.unknownFile, kill_IPC s) ↔
      command ∈ COMMANDS ∧ ¬ dictMem s.files file) ∧
    (∀ e t, request command file ekw cw lang tr s draws = Except.error (e, t) →
      t.alive = false ∧ t.sent = s.sent) ∧
    (∀ s1 d1, request command file ekw cw lang tr s draws =
        Except.ok (some (s1, d1)) →
      ∃ id, s1.sent = s.sent ++ [Message.request id command file ekw cw lang tr]) := by
  refine ⟨?_, ?_, ?_, ?_⟩
  · by_cases hc : command ∈ COMMANDS
    · rw [request, if_neg (not_not_intro hc)]
      by_cases hf : dictMem s.files file
      · rw [if_neg (by simp [hf])]
        simp [hc]
      · rw [if_pos (by simp [hf])]
        simp [hc]
    · rw [request, if_pos hc]
      simp [hc]
  · by_cases hc : command ∈ COMMANDS
    · rw [request, if_neg (not_not_intro hc)]
      by_cases hf : dictMem s.files file
      · rw [if_neg (by simp [hf])]
        simp [hc, hf]
      · rw [if_pos (by simp [hf])]
        simp [hc, hf]
    · rw [request, if_pos hc]
      simp [hc]
  · intro e t h
    by_cases hc : command ∈ COMMANDS
    · by_cases hf : dictMem s.files file
      · rw [request, if_neg (not_not_intro hc), if_neg (by simp [hf])] at h
        cases h
      · rw [request, if_neg (not_not_intro hc), if_pos (by simp [hf])] at h
        injection h with h
        rw [Prod.mk.injEq] at h
        obtain ⟨-, rfl⟩ := h
        exact ⟨rfl, rfl⟩
    · rw [request, if_pos hc] at h
      injection h with h
      rw [Prod.mk.injEq] at h
      obtain ⟨-, rfl⟩ := h
      exact ⟨rfl, rfl⟩
  · intro s1 d1 h
    obtain ⟨-, -, id, -, hs1⟩ := request_ok_inv h
    exact ⟨id, by rw [hs1]⟩

/-- Witness for C6: a bogus command is rejected with InvalidCommand and
the worker is killed. -/
theorem C6_request_validation_witness :
    request "bogus" "f.py" [] "" "Text" (1, -1) sW2 [5] =
      Except.error (IPCErr.invalidCommand, kill_IPC sW2) :=
  (C6_request_validation "bogus" "f.py" [] "" "Text" (1, -1) sW2 [5]).1.mpr
    (by decide)

/-! ### C3: remove_file and the file mirror -/

/-- Concrete mirror with two files for exercising `remove_file`. -/
def sW3 : IPCState :=
  ⟨[], 15000,
    [("autocomplete", 0), ("replacements", 0), ("highlight", 0)],
    [("autocomplete", none), ("replacements", none), ("highlight", none)],
    [("a.txt", "1"), ("b.txt", "2")], [], true, [], 1⟩

/-- `sW3` after the removal notification for "a.txt" was sent: note that
`files` still contains "a.txt" because `IPC.remove_file` never deletes
the key from `self.files`. -/
def sW3r : IPCState :=
  { sW3 with all_ids := [4], sent := [Message.notification 4 true "a.txt" ""] }

/-- C3: `remove_file "a.txt"` succeeds (sending the removal Notification)
but leaves "a.txt" in `files`, and a later `create_server` replay of the
mirror re-sends "a.txt" as an upsert — the replay does not cover only the
surviving files.  This contradicts the claim that the filename is removed
from the mirror. -/
theorem C3_remove_file_keeps_filename :
    remove_file "a.txt" sW3 [4] = Except.ok (some (sW3r, [])) ∧
    dictMem sW3r.files "a.txt" = true ∧
    sW3r.sent = [Message.notification 4 true "a.txt" ""] ∧
    ∃ s'' rest, create_server sW3r [5, 6] = some (s'', rest) ∧
      Message.notification 5 false "a.txt" "1" ∈ s''.sent ∧
      dictMem s''.files "a.txt" = true := by
  refine ⟨by rfl, by decide, by rfl, ?_⟩
  refine ⟨_, _, rfl, ?_, ?_⟩ <;> decide

/-! ### Frame lemmas for draining, sending and replay -/

theorem parse_response_ok_frame {res : Response} {s s' : IPCState}
    (h : parse_response res s = Except.ok s') :
    s'.id_max = s.id_max ∧ s'.files = s.files ∧
    s'.response_queue = s.response_queue ∧ s'.alive = s.alive ∧
    s'.sent = s.sent ∧ s'.spawn_count = s.spawn_count := by
  unfold parse_response at h
  dsimp only at h
  split at h
  · cases h
  · split at h
    · injection h with h
      subst h
      exact ⟨rfl, rfl, rfl, rfl, rfl, rfl⟩
    · split at h
      · cases h
      · split at h
        · injection h with h
          subst h
          exact ⟨rfl, rfl, rfl, rfl, rfl, rfl⟩
        · injection h with h
          subst h
          exact ⟨rfl, rfl, rfl, rfl, rfl, rfl⟩

theorem drainLoop_ok_frame {rs : List Response} {s s' : IPCState}
    (h : drainLoop rs s = Except.ok s') :
    s'.id_max = s.id_max ∧ s'.files = s.files ∧
    s'.response_queue = s.response_queue ∧ s'.alive = s.alive ∧
    s'.sent = s.sent ∧ s'.spawn_count = s.spawn_count := by
  induction rs generalizing s with
  | nil =>
    unfold drainLoop at h
    injection h with h
    subst h
    exact ⟨rfl, rfl, rfl, rfl, rfl, rfl⟩
  | cons r rest ih =>
    unfold drainLoop at h
    cases hp : parse_response r s with
    | error e => rw [hp] at h; cases h
    | ok t =>
      rw [hp] at h
      obtain ⟨h1, h2, h3, h4, h5, h6⟩ := parse_response_ok_frame hp
      obtain ⟨g1, g2, g3, g4, g5, g6⟩ := ih h
      exact ⟨g1.trans h1, g2.trans h2, g3.trans h3, g4.trans h4,
        g5.trans h5, g6.trans h6⟩

theorem update_file_ok {filename contents : String} {s s' : IPCState}
    {draws d' : List Nat}
    (h : update_file filename contents s draws = some (s', d')) :
    ∃ id, allocId draws s.all_ids = some (id, d') ∧
      s' = { s with files := dictSet s.files filename contents,
                    all_ids := s.all_ids ++ [id],
                    sent := s.sent ++ [Message.notification id false filename contents] } := by
  unfold update_file at h
  rw [create_message_notification_eq] at h
  dsimp only at h
  cases halloc : allocId draws s.all_ids with
  | none => rw [halloc] at h; cases h
  | some p =>
    obtain ⟨id, r⟩ := p
    rw [halloc] at h
    simp only [Option.map_some', Option.some.injEq, Prod.mk.injEq] at h
    obtain ⟨hs, hd⟩ := h
    subst hd
    refine ⟨id, rfl, ?_⟩
    rw [← hs]
    simp [send_message]

theorem ping_ok_inv {s s' : IPCState} {draws d' : List Nat}
    (h : ping s draws = some (s', d')) :
    ∃ id, allocId draws s.all_ids = some (id, d') ∧
      s' = { s with all_ids := s.all_ids ++ [id],
                    sent := s.sent ++ [Message.ping id] } := by
  unfold ping at h
  rw [create_message_ping_eq] at h
  cases halloc : allocId draws s.all_ids with
  | none => rw [halloc] at h; cases h
  | some p =>
    obtain ⟨id, r⟩ := p
    rw [halloc] at h
    simp only [Option.map_some', Option.some.injEq, Prod.mk.injEq] at h
    obtain ⟨hs, hd⟩ := h
    subst hd
    refine ⟨id, rfl, ?_⟩
    rw [← hs]
    simp [send_message]

theorem remove_file_ok_inv {filename : String} {s s' : IPCState}
    {draws d' : List Nat}
    (h : remove_file filename s draws = Except.ok (some (s', d'))) :
    dictMem s.files filename = true ∧
    ∃ id, allocId draws s.all_ids = some (id, d') ∧
      s' = { s with all_ids := s.all_ids ++ [id],
                    sent := s.sent ++ [Message.notification id true filename ""] } := by
  by_cases hf : dictMem s.files filename
  · refine ⟨hf, ?_⟩
    rw [remove_file, if_neg (by simp [hf])] at h
    injection h with h
    rw [create_message_notification_eq] at h
    cases halloc : allocId draws s.all_ids with
    | none => rw [halloc] at h; cases h
    | some p =>
      obtain ⟨id, r⟩ := p
      rw [halloc] at h
      simp only [Option.map_some', Option.some.injEq, Prod.mk.injEq] at h
      obtain ⟨hs, hd⟩ := h
      subst hd
      refine ⟨id, rfl, ?_⟩
      rw [← hs]
      simp [send_message]
  · rw [remove_file, if_pos (by simp [hf])] at h
    cases h

theorem replayFiles_ok_facts {fl : List (String × String)} {s s' : IPCState}
    {draws d' : List Nat}
    (h : replayFiles fl s draws = some (s', d')) :
    s'.alive = s.alive ∧ s'.spawn_count = s.spawn_count ∧
    (∀ m ∈ s.sent, m ∈ s'.sent) ∧
    (∀ p ∈ fl, ∃ id, Message.notification id false p.1 p.2 ∈ s'.sent) := by
  induction fl generalizing s draws with
  | nil =>
    unfold replayFiles at h
    injection h with h
    rw [Prod.mk.injEq] at h
    obtain ⟨rfl, -⟩ := h
    exact ⟨rfl, rfl, fun m hm => hm, fun p hp => absurd hp (List.not_mem_nil p)⟩
  | cons q rest ih =>
    obtain ⟨f, c⟩ := q
    unfold replayFiles at h
    cases hu : update_file f c s draws with
    | none => rw [hu] at h; cases h
    | some p =>
      obtain ⟨t, dt⟩ := p
      rw [hu] at h
      obtain ⟨id, -, hts⟩ := update_file_ok hu
      obtain ⟨a1, a2, a3, a4⟩ := ih h
      subst hts
      refine ⟨by simpa using a1, by simpa using a2, ?_, ?_⟩
      · intro m hm
        exact a3 m (by simp [hm])
      · intro p hp
        rcases List.mem_cons.mp hp with hp | hp
        · subst hp
          exact ⟨id, a3 _ (by simp)⟩
        · exact a4 p hp

/-! ### C4: no Facade entry point checks worker liveness -/

/-- A state whose worker process is dead, with one mirrored file. -/
def sW4 : IPCState :=
  ⟨[], 15000,
    [("autocomplete", 0), ("replacements", 0), ("highlight", 0)],
    [("autocomplete", none), ("replacements", none), ("highlight", none)],
    [("f.py", "x")], [], false, [], 0⟩

/-- `sW4` after a successful request: still dead, never respawned. -/
def sW4r : IPCState :=
  { sW4 with all_ids := [5],
             current_ids := dictSet sW4.current_ids "autocomplete" 5,
             sent := [Message.request 5 "autocomplete" "f.py" [] "" "Text" (1, -1)] }

/-- C4 (counterexample): with the worker dead, a valid `request` proceeds
without spawning a fresh worker or replaying the mirror — the only message
sent is the Request itself, `alive` stays false and `spawn_count` stays 0,
contrary to the claim that the next failing-capable call respawns and
replays before sending. -/
theorem C4_dead_worker_counterexample :
    sW4.alive = false ∧
    request "autocomplete" "f.py" [] "" "Text" (1, -1) sW4 [5] =
      Except.ok (some (sW4r, [])) ∧
    sW4r.alive = false ∧ sW4r.spawn_count = 0 ∧
    sW4r.sent = [Message.request 5 "autocomplete" "f.py" [] "" "Text" (1, -1)] :=
  ⟨rfl, by rfl, rfl, rfl, by decide⟩

/-- C4 (amended): none of `request`, `cancel_request`, `get_response`,
`remove_file` checks worker liveness: successful calls leave `alive` and
`spawn_count` unchanged, failing calls kill the worker without respawning;
`check_server` — which no Facade entry point invokes — is the operation
that, on a dead worker, spawns a fresh one and replays the whole mirror
as upsert notifications. -/
theorem C4_no_liveness_check_amended :
    (∀ (command file : String) (ekw : List String) (cw lang : String)
      (tr : Int × Int) (s : IPCState) (draws : List Nat) (s' : IPCState)
      (d' : List Nat),
      request command file ekw cw lang tr s draws = Except.ok (some (s', d')) →
      s'.alive = s.alive ∧ s'.spawn_count = s.spawn_count) ∧
    (∀ (command file : String) (ekw : List String) (cw lang : String)
      (tr : Int × Int) (s : IPCState) (draws : List Nat) (e : IPCErr)
      (t : IPCState),
      request command file ekw cw lang tr s draws = Except.error (e, t) →
      t.alive = false ∧ t.spawn_count = s.spawn_count) ∧
    (∀ (command : String) (s s' : IPCState),
      cancel_request command s = Except.ok s' →
      s'.alive = s.alive ∧ s'.spawn_count = s.spawn_count) ∧
    (∀ (command : String) (s : IPCState) (r : Option Response) (s' : IPCState),
      get_response command s = Except.ok (r, s') →
      s'.alive = s.alive ∧ s'.spawn_count = s.spawn_count) ∧
    (∀ (filename : String) (s : IPCState) (draws : List Nat) (s' : IPCState)
      (d' : List Nat),
      remove_file filename s draws = Except.ok (some (s', d')) →
      s'.alive = s.alive ∧ s'.spawn_count = s.spawn_count) ∧
    (∀ (s : IPCState) (draws : List Nat) (s' : IPCState) (d' : List Nat),
      ¬ s.alive = true → check_server s draws = some (s', d') →
      s'.alive = true ∧ s'.spawn_count = s.spawn_count + 1 ∧
      ∀ p ∈ s.files, ∃ id, Message.notification id false p.1 p.2 ∈ s'.sent) := by
  refine ⟨?_, ?_, ?_, ?_, ?_, ?_⟩
  · intro command file ekw cw lang tr s draws s' d' h
    obtain ⟨-, -, id, -, hs1⟩ := request_ok_inv h
    rw [hs1]
    exact ⟨rfl, rfl⟩
  · intro command file ekw cw lang tr s draws e t h
    by_cases hc : command ∈ COMMANDS
    · by_cases hf : dictMem s.files file
      · rw [request, if_neg (not_not_intro hc), if_neg (by simp [hf])] at h
        cases h
      · rw [request, if_neg (not_not_intro hc), if_pos (by simp [hf])] at h
        injection h with h
        rw [Prod.mk.injEq] at h
        obtain ⟨-, rfl⟩ := h
        exact ⟨rfl, rfl⟩
    · rw [request, if_pos hc] at h
      injection h with h
      rw [Prod.mk.injEq] at h
      obtain ⟨-, rfl⟩ := h
      exact ⟨rfl, rfl⟩
  · intro command s s' h
    by_cases hc : command ∈ COMMANDS
    · rw [cancel_request, if_neg (not_not_intro hc)] at h
      injection h with h
      subst h
      exact ⟨rfl, rfl⟩
    · rw [cancel_request, if_pos hc] at h
      cases h
  · intro command s r s' h
    by_cases hc : command ∈ COMMANDS
    · rw [get_response, if_neg (not_not_intro hc)] at h
      cases hcr : check_responses s with
      | error e => rw [hcr] at h; cases h
      | ok t =>
        rw [hcr] at h
        dsimp only at h
        unfold check_responses at hcr
        obtain ⟨-, -, -, h4, -, h6⟩ := drainLoop_ok_frame hcr
        cases hgt : dictGet t.newest_responses command with
        | none => rw [hgt] at h; cases h
        | some resp =>
          rw [hgt] at h
          injection h with h
          rw [Prod.mk.injEq] at h
          obtain ⟨-, rfl⟩ := h
          exact ⟨h4, h6⟩
    · rw [get_response, if_pos hc] at h
      cases h
  · intro filename s draws s' d' h
    obtain ⟨-, id, -, hs'⟩ := remove_file_ok_inv h
    rw [hs']
    exact ⟨rfl, rfl⟩
  · intro s draws s' d' hdead h
    rw [check_server, if_pos hdead] at h
    unfold create_server at h
    dsimp only at h
    obtain ⟨a1, a2, -, a4⟩ := replayFiles_ok_facts h
    exact ⟨a1, a2, a4⟩

/-! ### C7: identifier allocation invariants -/

/-- The correlation id a message carries. -/
def Message.mid : Message → Nat
  | .ping id => id
  | .request id _ _ _ _ _ _ => id
  | .notification id _ _ _ => id

/-- `n` consecutive allocations with no intervening observation: `n`
successive pings. -/
def pingSeq : Nat → IPCState → List Nat → Option (IPCState × List Nat)
  | 0, s, draws => some (s, draws)
  | n + 1, s, draws =>
    match ping s draws with
    | none => none
    | some (s', d') => pingSeq n s' d'

theorem allocId_rest_subset {draws l : List Nat} {id : Nat} {rest : List Nat}
    (h : allocId draws l = some (id, rest)) : ∀ x ∈ rest, x ∈ draws := by
  induction draws with
  | nil => cases h
  | cons d ds ih =>
    by_cases hd : d ∈ l
    · unfold allocId at h
      rw [if_pos hd] at h
      intro x hx
      exact List.mem_cons_of_mem _ (ih h x hx)
    · unfold allocId at h
      rw [if_neg hd] at h
      injection h with h
      rw [Prod.mk.injEq] at h
      obtain ⟨-, rfl⟩ := h
      intro x hx
      exact List.mem_cons_of_mem _ hx

theorem pingSeq_facts {n : Nat} {s : IPCState} {draws : List Nat}
    {s' : IPCState} {d' : List Nat}
    (hdr : ∀ d ∈ draws, 1 ≤ d ∧ d ≤ s.id_max)
    (h : pingSeq n s draws = some (s', d')) :
    ∃ newIds, s'.all_ids = s.all_ids ++ newIds ∧ newIds.length = n ∧
      (∀ i ∈ newIds, 1 ≤ i ∧ i ≤ s.id_max) ∧
      (s.all_ids.Nodup → s'.all_ids.Nodup) := by
  induction n generalizing s draws with
  | zero =>
    unfold pingSeq at h
    injection h with h
    rw [Prod.mk.injEq] at h
    obtain ⟨rfl, -⟩ := h
    exact ⟨[], by simp, rfl, by simp, fun hnd => hnd⟩
  | succ n ih =>
    unfold pingSeq at h
    cases hp : ping s draws with
    | none => rw [hp] at h; cases h
    | some p =>
      obtain ⟨t, dt⟩ := p
      rw [hp] at h
      obtain ⟨id, halloc, hts⟩ := ping_ok_inv hp
      have hidmem := allocId_mem halloc
      have hrest := allocId_rest_subset halloc
      subst hts
      have hdr' : ∀ d ∈ dt, 1 ≤ d ∧
          d ≤ ({ s with all_ids := s.all_ids ++ [id],
                        sent := s.sent ++ [Message.ping id] } : IPCState).id_max := by
        intro d hd
        simpa using hdr d (hrest d hd)
      obtain ⟨newIds, h1, h2, h3, h4⟩ := ih hdr' h
      refine ⟨id :: newIds, by simp [h1], by simp [h2], ?_, ?_⟩
      · intro i hi
        rcases List.mem_cons.mp hi with rfl | hi
        · exact hdr i hidmem.2
        · simpa using h3 i hi
      · intro hnd
        apply h4
        simp only [List.nodup_append, List.nodup_cons, List.nodup_nil]
        exact ⟨hnd, by simp, by simpa using hidmem.1⟩

/-- C7: an id drawn by the rejection-sampling allocator lies in
[1, id_max] (in particular it is never the sentinel 0) and is fresh;
`create_message` appends exactly that id to `all_ids` and stamps the one
message it sends with it, preserving freedom from duplicates; and `n`
consecutive allocations without intervening observation extend `all_ids`
by `n` pairwise-distinct in-range ids. -/
theorem C7_id_allocation_invariants (s : IPCState) (draws : List Nat)
    (hdr : ∀ d ∈ draws, 1 ≤ d ∧ d ≤ s.id_max) :
    (∀ id rest, allocId draws s.all_ids = some (id, rest) →
      1 ≤ id ∧ id ≤ s.id_max ∧ id ∉ s.all_ids ∧ id ≠ 0) ∧
    (∀ ty kw s' rest, create_message ty kw s draws = some (s', rest) →
      ∃ id m, s'.all_ids = s.all_ids ++ [id] ∧ id ∉ s.all_ids ∧
        1 ≤ id ∧ id ≤ s.id_max ∧
        s'.sent = s.sent ++ [m] ∧ m.mid = id ∧
        (s.all_ids.Nodup → s'.all_ids.Nodup)) ∧
    (∀ n s' d', pingSeq n s draws = some (s', d') →
      ∃ newIds, s'.all_ids = s.all_ids ++ newIds ∧ newIds.length = n ∧
        (∀ i ∈ newIds, 1 ≤ i ∧ i ≤ s.id_max) ∧
        (s.all_ids.Nodup → s'.all_ids.Nodup)) := by
  have hfacts : ∀ id rest, allocId draws s.all_ids = some (id, rest) →
      1 ≤ id ∧ id ≤ s.id_max ∧ id ∉ s.all_ids ∧ id ≠ 0 := by
    intro id rest h
    obtain ⟨hnm, hmem⟩ := allocId_mem h
    obtain ⟨h1, h2⟩ := hdr id hmem
    exact ⟨h1, h2, hnm, by omega⟩
  refine ⟨hfacts, ?_, fun n s' d' h => pingSeq_facts hdr h⟩
  intro ty kw s' rest h
  unfold create_message at h
  cases halloc : allocId draws s.all_ids with
  | none => rw [halloc] at h; cases h
  | some p =>
    obtain ⟨id, r⟩ := p
    rw [halloc] at h
    obtain ⟨h1, h2, h3, -⟩ := hfacts id r halloc
    have hnodup : s.all_ids.Nodup → (s.all_ids ++ [id]).Nodup := by
      intro hnd
      simp only [List.nodup_append, List.nodup_cons, List.nodup_nil]
      exact ⟨hnd, by simp, by simpa using h3⟩
    dsimp only at h
    split at h
    · injection h with h
      rw [Prod.mk.injEq] at h
      obtain ⟨rfl, -⟩ := h
      exact ⟨id, _, rfl, h3, h1, h2, rfl, rfl, by simpa using hnodup⟩
    · injection h with h
      rw [Prod.mk.injEq] at h
      obtain ⟨rfl, -⟩ := h
      exact ⟨id, _, rfl, h3, h1, h2, rfl, rfl, by simpa using hnodup⟩
    · injection h with h
      rw [Prod.mk.injEq] at h
      obtain ⟨rfl, -⟩ := h
      exact ⟨id, _, rfl, h3, h1, h2, rfl, rfl, by simpa using hnodup⟩
    · injection h with h
      rw [Prod.mk.injEq] at h
      obtain ⟨rfl, -⟩ := h
      exact ⟨id, _, rfl, h3, h1, h2, rfl, rfl, by simpa using hnodup⟩

/-- `sW2` after two pings with draws 5 then 8. -/
def sW7a : IPCState :=
  { sW2 with all_ids := [5, 8], sent := [Message.ping 5, Message.ping 8] }

/-- Witness for C7: two concrete allocations yield the two distinct
in-range ids 5 and 8. -/
theorem C7_id_allocation_invariants_witness :
    pingSeq 2 sW2 [5, 8] = some (sW7a, []) ∧
    sW7a.all_ids = sW2.all_ids ++ [5, 8] ∧ sW7a.all_ids.Nodup := by
  refine ⟨by rfl, by decide, ?_⟩
  obtain ⟨-, -, hseq⟩ := C7_id_allocation_invariants sW2 [5, 8] (by decide)
  obtain ⟨newIds, -, -, -, h4⟩ := hseq 2 sW7a [] (by rfl)
  exact h4 (by decide)

/-! ### C8: termination behaviour of the rejection-sampling loop -/

/-- C8: the allocation loop has no bound check — its behaviour is purely
draw-driven: (a) it terminates on any draw sequence containing a value
outside the outstanding set; (b) whenever fewer than `id_max` (pairwise
distinct, in-range) identifiers are outstanding such a fresh in-range
value exists, so the loop terminates as soon as the random stream
produces one; (c) when every integer of [1, id_max] is outstanding, the
loop fails to terminate on every in-range draw sequence, however long —
the guard against this is left to the caller. -/
theorem C8_rejection_sampling_termination (all_ids draws : List Nat)
    (id_max : Nat) :
    ((∃ d ∈ draws, d ∉ all_ids) → (allocId draws all_ids).isSome) ∧
    (all_ids.Nodup → (∀ i ∈ all_ids, 1 ≤ i ∧ i ≤ id_max) →
      all_ids.length < id_max →
      ∃ i, 1 ≤ i ∧ i ≤ id_max ∧ i ∉ all_ids) ∧
    ((∀ i, 1 ≤ i → i ≤ id_max → i ∈ all_ids) →
      (∀ d ∈ draws, 1 ≤ d ∧ d ≤ id_max) → allocId draws all_ids = none) := by
  refine ⟨?_, ?_, ?_⟩
  · show (∃ d ∈ draws, d ∉ all_ids) → (allocId draws all_ids).isSome
    induction draws with
    | nil =>
      intro hex
      obtain ⟨d, hd, -⟩ := hex
      cases hd
    | cons d0 ds ih =>
      intro hex
      by_cases h0 : d0 ∈ all_ids
      · unfold allocId
        rw [if_pos h0]
        apply ih
        obtain ⟨d, hd, hdn⟩ := hex
        rcases List.mem_cons.mp hd with rfl | hd
        · exact absurd h0 hdn
        · exact ⟨d, hd, hdn⟩
      · unfold allocId
        rw [if_neg h0]
        rfl
  · intro hnd hrange hlen
    by_contra hno
    push_neg at hno
    have hsub : Finset.Icc 1 id_max ⊆ all_ids.toFinset := by
      intro i hi
      rw [Finset.mem_Icc] at hi
      rw [List.mem_toFinset]
      exact hno i hi.1 hi.2
    have hcard := Finset.card_le_card hsub
    rw [Nat.card_Icc] at hcard
    rw [List.toFinset_card_of_nodup hnd] at hcard
    omega
  · intro hall
    induction draws with
    | nil => intro _; rfl
    | cons d0 ds ih =>
      intro hdr
      have h0 : d0 ∈ all_ids :=
        hall d0 (hdr d0 (by simp)).1 (hdr d0 (by simp)).2
      unfold allocId
      rw [if_pos h0]
      exact ih (fun d hd => hdr d (List.mem_cons_of_mem _ hd))

/-! ### C10: every sender allocates; ids persist until observed -/

theorem parse_response_ok_all_ids {res : Response} {s s' : IPCState}
    (h : parse_response res s = Except.ok s') :
    listRemove s.all_ids res.id = some s'.all_ids := by
  cases hr : listRemove s.all_ids res.id with
  | none => unfold parse_response at h; rw [hr] at h; cases h
  | some ids =>
    unfold parse_response at h
    rw [hr] at h
    dsimp only at h
    cases hc : res.command with
    | none =>
      simp only [hc] at h
      injection h with h
      subst h
      rfl
    | some c =>
      simp only [hc] at h
      cases hg : dictGet s.current_ids c with
      | none => simp only [hg] at h; cases h
      | some cur =>
        simp only [hg] at h
        by_cases hne : res.id ≠ cur
        · rw [if_pos hne] at h
          injection h with h
          subst h
          rfl
        · rw [if_neg hne] at h
          injection h with h
          subst h
          rfl

theorem drainLoop_preserves_id {rs : List Response} {s s' : IPCState}
    {id : Nat} (h : drainLoop rs s = Except.ok s') (hmem : id ∈ s.all_ids)
    (hne : ∀ r ∈ rs, r.id ≠ id) : id ∈ s'.all_ids := by
  induction rs generalizing s with
  | nil =>
    unfold drainLoop at h
    injection h with h
    subst h
    exact hmem
  | cons r rest ih =>
    unfold drainLoop at h
    cases hp : parse_response r s with
    | error e => rw [hp] at h; cases h
    | ok t =>
      rw [hp] at h
      have hrem := parse_response_ok_all_ids hp
      have hmem' : id ∈ t.all_ids :=
        mem_of_listRemove hrem hmem (hne r (List.mem_cons_self r rest)).symm
      exact ih h hmem' (fun r' hr' => hne r' (List.mem_cons_of_mem _ hr'))

theorem get_response_ok_inv {command : String} {s : IPCState}
    {r : Option Response} {s' : IPCState}
    (h : get_response command s = Except.ok (r, s')) :
    command ∈ COMMANDS ∧
    ∃ t, drainLoop s.response_queue { s with response_queue := [] } =
        Except.ok t ∧
      dictGet t.newest_responses command = some r ∧
      s' = { t with newest_responses := dictSet t.newest_responses command none } := by
  by_cases hc : command ∈ COMMANDS
  · rw [get_response, if_neg (not_not_intro hc)] at h
    cases hcr : check_responses s with
    | error e => rw [hcr] at h; cases h
    | ok t =>
      rw [hcr] at h
      dsimp only at h
      cases hgt : dictGet t.newest_responses command with
      | none => rw [hgt] at h; cases h
      | some resp =>
        rw [hgt] at h
        injection h with h
        rw [Prod.mk.injEq] at h
        obtain ⟨rfl, rfl⟩ := h
        unfold check_responses at hcr
        exact ⟨hc, t, hcr, hgt, rfl⟩
  · rw [get_response, if_pos hc] at h
    cases h

/-- One external step of the system: a Facade call or the worker
delivering a response into the inbound queue. -/
inductive FacadeOp where
  | pingOp
  | requestOp (command file : String) (ekw : List String) (cw lang : String)
      (tr : Int × Int)
  | cancelOp (command : String)
  | getOp (command : String)
  | updateOp (filename contents : String)
  | removeOp (filename : String)
  | arrive (r : Response)

/-- Run one step; `none` when the op raises or the draw oracle runs out. -/
def runOp : FacadeOp → IPCState → List Nat → Option (IPCState × List Nat)
  | .pingOp, s, d => ping s d
  | .requestOp c f ekw cw lang tr, s, d =>
    match request c f ekw cw lang tr s d with
    | .ok r => r
    | .error _ => none
  | .cancelOp c, s, d =>
    match cancel_request c s with
    | .ok s' => some (s', d)
    | .error _ => none
  | .getOp c, s, d =>
    match get_response c s with
    | .ok p => some (p.2, d)
    | .error _ => none
  | .updateOp f c, s, d => update_file f c s d
  | .removeOp f, s, d =>
    match remove_file f s d with
    | .ok r => r
    | .error _ => none
  | .arrive r, s, d => some ({ s with response_queue := s.response_queue ++ [r] }, d)

/-- Run a trace of steps. -/
def runOps : List FacadeOp → IPCState → List Nat → Option (IPCState × List Nat)
  | [], s, d => some (s, d)
  | op :: ops, s, d =>
    match runOp op s d with
    | none => none
    | some (s', d') => runOps ops s' d'

/-- The responses a trace delivers inbound. -/
def arrivals (ops : List FacadeOp) : List Response :=
  ops.filterMap (fun op =>
    match op with
    | .arrive r => some r
    | _ => none)

theorem runOp_step {op : FacadeOp} {s : IPCState} {d : List Nat}
    {s' : IPCState} {d' : List Nat} {id : Nat}
    (h : runOp op s d = some (s', d'))
    (hmem : id ∈ s.all_ids)
    (hq : ∀ r ∈ s.response_queue, r.id ≠ id)
    (har : ∀ r ∈ arrivals [op], r.id ≠ id) :
    id ∈ s'.all_ids ∧ ∀ r ∈ s'.response_queue, r.id ≠ id := by
  cases op with
  | pingOp =>
    obtain ⟨i, -, hs'⟩ := ping_ok_inv h
    subst hs'
    exact ⟨by simp [hmem], by simpa using hq⟩
  | requestOp c f ekw cw lang tr =>
    dsimp only [runOp] at h
    cases hreq : request c f ekw cw lang tr s d with
    | error e => rw [hreq] at h; cases h
    | ok r0 =>
      rw [hreq] at h
      have h2 : r0 = some (s', d') := h
      rw [h2] at hreq
      obtain ⟨-, -, i, -, hs'⟩ := request_ok_inv hreq
      subst hs'
      exact ⟨by simp [hmem], by simpa using hq⟩
  | cancelOp c =>
    dsimp only [runOp] at h
    cases hcan : cancel_request c s with
    | error e => rw [hcan] at h; cases h
    | ok t =>
      rw [hcan] at h
      have h2 : (some (t, d) : Option (IPCState × List Nat)) = some (s', d') := h
      injection h2 with h2
      rw [Prod.mk.injEq] at h2
      obtain ⟨rfl, -⟩ := h2
      by_cases hcm : c ∈ COMMANDS
      · rw [cancel_request, if_neg (not_not_intro hcm)] at hcan
        injection hcan with hcan
        subst hcan
        exact ⟨hmem, hq⟩
      · rw [cancel_request, if_pos hcm] at hcan
        cases hcan
  | getOp c =>
    dsimp only [runOp] at h
    cases hg : get_response c s with
    | error e => rw [hg] at h; cases h
    | ok p =>
      obtain ⟨p1, p2⟩ := p
      rw [hg] at h
      have h2 : (some (p2, d) : Option (IPCState × List Nat)) = some (s', d') := h
      injection h2 with h2
      rw [Prod.mk.injEq] at h2
      obtain ⟨rfl, -⟩ := h2
      obtain ⟨-, t, hdrain, -, hs'⟩ := get_response_ok_inv hg
      have htq : t.response_queue = ([] : List Response) :=
        (drainLoop_ok_frame hdrain).2.2.1
      subst hs'
      refine ⟨(drainLoop_preserves_id hdrain hmem hq : id ∈ t.all_ids), ?_⟩
      intro r' hr'
      simp [htq] at hr'
  | updateOp f c =>
    obtain ⟨i, -, hs'⟩ := update_file_ok h
    subst hs'
    exact ⟨by simp [hmem], by simpa using hq⟩
  | removeOp f =>
    dsimp only [runOp] at h
    cases hrem : remove_file f s d with
    | error e => rw [hrem] at h; cases h
    | ok r0 =>
      rw [hrem] at h
      have h2 : r0 = some (s', d') := h
      rw [h2] at hrem
      obtain ⟨-, i, -, hs'⟩ := remove_file_ok_inv hrem
      subst hs'
      exact ⟨by simp [hmem], by simpa using hq⟩
  | arrive r =>
    dsimp only [runOp] at h
    injection h with h
    rw [Prod.mk.injEq] at h
    obtain ⟨rfl, -⟩ := h
    refine ⟨hmem, ?_⟩
    intro r' hr'
    have hr2 : r' ∈ s.response_queue ∨ r' = r := by simpa using hr'
    rcases hr2 with hr2 | hr2
    · exact hq r' hr2
    · subst hr2
      exact har r' (by simp [arrivals])

/-- C10: every sending public operation — ping, update_file, a successful
remove_file or request — draws one fresh id and appends it to `all_ids`
(notifications and pings included); and across any successful trace of
Facade steps, an outstanding id survives unless a delivered response
bears it: observing such a response is the only removal. -/
theorem C10_senders_allocate_ids_persist :
    (∀ (s : IPCState) (draws : List Nat) (s' : IPCState) (d' : List Nat),
      ping s draws = some (s', d') →
      ∃ id, id ∉ s.all_ids ∧ s'.all_ids = s.all_ids ++ [id]) ∧
    (∀ (f c : String) (s : IPCState) (draws : List Nat) (s' : IPCState)
      (d' : List Nat), update_file f c s draws = some (s', d') →
      ∃ id, id ∉ s.all_ids ∧ s'.all_ids = s.all_ids ++ [id]) ∧
    (∀ (f : String) (s : IPCState) (draws : List Nat) (s' : IPCState)
      (d' : List Nat), remove_file f s draws = Except.ok (some (s', d')) →
      ∃ id, id ∉ s.all_ids ∧ s'.all_ids = s.all_ids ++ [id]) ∧
    (∀ (c f : String) (ekw : List String) (cw lang : String) (tr : Int × Int)
      (s : IPCState) (draws : List Nat) (s' : IPCState) (d' : List Nat),
      request c f ekw cw lang tr s draws = Except.ok (some (s', d')) →
      ∃ id, id ∉ s.all_ids ∧ s'.all_ids = s.all_ids ++ [id]) ∧
    (∀ (ops : List FacadeOp) (s : IPCState) (draws : List Nat)
      (s' : IPCState) (d' : List Nat) (id : Nat),
      runOps ops s draws = some (s', d') →
      id ∈ s.all_ids →
      (∀ r ∈ s.response_queue, r.id ≠ id) →
      (∀ r ∈ arrivals ops, r.id ≠ id) →
      id ∈ s'.all_ids) := by
  refine ⟨?_, ?_, ?_, ?_, ?_⟩
  · intro s draws s' d' h
    obtain ⟨id, halloc, hs'⟩ := ping_ok_inv h
    exact ⟨id, (allocId_mem halloc).1, by rw [hs']⟩
  · intro f c s draws s' d' h
    obtain ⟨id, halloc, hs'⟩ := update_file_ok h
    exact ⟨id, (allocId_mem halloc).1, by rw [hs']⟩
  · intro f s draws s' d' h
    obtain ⟨-, id, halloc, hs'⟩ := remove_file_ok_inv h
    exact ⟨id, (allocId_mem halloc).1, by rw [hs']⟩
  · intro c f ekw cw lang tr s draws s' d' h
    obtain ⟨-, -, id, halloc, hs'⟩ := request_ok_inv h
    exact ⟨id, (allocId_mem halloc).1, by rw [hs']⟩
  · intro ops
    induction ops with
    | nil =>
      intro s draws s' d' id h hmem hq har
      unfold runOps at h
      injection h with h
      rw [Prod.mk.injEq] at h
      obtain ⟨rfl, -⟩ := h
      exact hmem
    | cons op ops ih =>
      intro s draws s' d' id h hmem hq har
      unfold runOps at h
      cases hstep : runOp op s draws with
      | none => rw [hstep] at h; cases h
      | some p =>
        obtain ⟨t, dt⟩ := p
        rw [hstep] at h
        have hsplit : arrivals (op :: ops) = arrivals [op] ++ arrivals ops := by
          cases op <;> simp [arrivals]
        rw [hsplit] at har
        obtain ⟨hmem', hq'⟩ := runOp_step hstep hmem hq
          (fun r hr => har r (List.mem_append_left _ hr))
        exact ih t dt s' d' id h hmem' hq'
          (fun r hr => har r (List.mem_append_right _ hr))
